import Mathlib

set_option maxHeartbeats 1600000

/-!
Verification development for src/subscription_report_process.py.

The Python module defines a class Clients that reads a transaction log once,
classifies each subscriber into a cadence (one-off / daily / monthly / yearly),
accumulates revenue per calendar year, tracks the three largest distinct years,
and offers report accessors.  Below is a shallow embedding: Python dicts become
association lists in insertion order (Python 3.7+ dicts preserve insertion
order), exceptions become an explicit error type, and a calendar date is
represented by the pair of its calendar year (the slice of the date string used
by the code) and its day ordinal (the value strptime subtraction works on).
-/

/-- Cadence labels, embedding the four subscription type strings of the code
(one-off, daily, monthly, yearly). -/
inductive Cadence where
  | oneOff
  | daily
  | monthly
  | yearly
  deriving DecidableEq, Repr

/-- A calendar date as used by the code: the year is what _split_line slices
out of the MM/DD/YYYY field, and serial is the day ordinal that the strptime
subtraction in _set_type measures deltas on. -/
structure SubDate where
  year : Nat
  serial : Int
  deriving DecidableEq, Repr

/-- Errors of the module: the two exception classes it defines
(InvalidDateTypeError and FileNotProcessedError) plus the builtin KeyError a
failed dict lookup raises. -/
inductive SubError where
  | invalidDateType
  | fileNotProcessed
  | keyError (key : Nat)
  deriving DecidableEq, Repr

/-- A parsed transaction record, the result of _split_line on one data line:
subscription id, amount and transaction date. -/
structure Transaction where
  id : Nat
  amount : Int
  date : SubDate
  deriving DecidableEq, Repr

/-- Per-client state: the list [type, duration, date] stored as the value of
_client_dict in the code. -/
structure ClientEntry where
  type_ : Cadence
  duration : Nat
  date : SubDate
  deriving DecidableEq, Repr

/-- The mutable state of a Clients object: _client_dict, _year_dict (both as
insertion-ordered association lists) and _last_three_years as an ascending
triple (oldest, middle, most recent). -/
structure ClientsState where
  client_dict : List (Nat × ClientEntry)
  year_dict : List (Nat × Int)
  last_three_years : Nat × Nat × Nat
  deriving DecidableEq, Repr

/-- Dict lookup on an association list: first binding of the key, none when
the key is absent (a Python KeyError). -/
def lookupA {α : Type} : List (Nat × α) → Nat → Option α
  | [], _ => none
  | p :: rest, key => if p.1 = key then some p.2 else lookupA rest key

/-- The keys of an association list, in insertion order. -/
def keysA {α : Type} (l : List (Nat × α)) : List Nat := l.map Prod.fst

/-- Dict lookup with default 0, used to phrase ledger values. -/
def lookupD (yd : List (Nat × Int)) (y : Nat) : Int := (lookupA yd y).getD 0

/-- Replace the value stored at a present key, keeping insertion order: the
in-place mutation of a dict value in the code. -/
def setClient : List (Nat × ClientEntry) → Nat → ClientEntry → List (Nat × ClientEntry)
  | [], _, _ => []
  | p :: rest, key, e =>
      if p.1 = key then (p.1, e) :: rest else p :: setClient rest key e

/-- The _year_dict update of _process_year: add amount to the bucket of an
existing year, otherwise append a fresh binding (dict insertion order). -/
def bumpYear : List (Nat × Int) → Nat → Int → List (Nat × Int)
  | [], y, a => [(y, a)]
  | p :: rest, y, a =>
      if p.1 = y then (p.1, p.2 + a) :: rest else p :: bumpYear rest y a

/-- The _last_three_years update of _process_year: if the year is not one of
the three stored slots, shift it into its sorted slot (the three successive
comparisons of the code). -/
def upd3 (t : Nat × Nat × Nat) (year : Nat) : Nat × Nat × Nat :=
  if year = t.1 ∨ year = t.2.1 ∨ year = t.2.2 then t
  else if t.2.2 < year then (t.2.1, t.2.2, year)
  else if t.2.1 < year then (t.2.1, year, t.2.2)
  else if t.1 < year then (year, t.2.1, t.2.2)
  else t

/-- Clients._process_year: credit the yearly revenue ledger and update the
recent-years triple. -/
def process_year (s : ClientsState) (year : Nat) (amount : Int) : ClientsState :=
  { s with
      year_dict := bumpYear s.year_dict year amount,
      last_three_years := upd3 s.last_three_years year }

/-- Clients._set_type: classify the day delta between the previous and the
current record of a client.  Deltas above 31 give yearly unless the current
type is daily or monthly; 28..31 gives monthly unless the current type is
daily; 1..27 gives daily; every remaining case raises InvalidDateTypeError. -/
def set_type (type_ : Cadence) (prev_date current_date : SubDate) :
    Except SubError Cadence :=
  let delta : Int := current_date.serial - prev_date.serial
  if 31 < delta ∧ type_ ≠ Cadence.daily ∧ type_ ≠ Cadence.monthly then
    Except.ok Cadence.yearly
  else if (27 < delta ∧ delta < 32) ∧ type_ ≠ Cadence.daily then
    Except.ok Cadence.monthly
  else if 0 < delta ∧ delta < 28 then
    Except.ok Cadence.daily
  else
    Except.error SubError.invalidDateType

/-- Clients._process_line on an already split record.  The year ledger is
updated first; then for a known client the duration is incremented before
_set_type runs, so on an InvalidDateTypeError the returned state keeps the
incremented duration while type and date stay as they were (the list
_line_item is aliased into the dict, mutations before the raise persist). -/
def process_line (s : ClientsState) (r : Transaction) :
    ClientsState × Option SubError :=
  let s1 := process_year s r.date.year r.amount
  match lookupA s1.client_dict r.id with
  | some item =>
      match set_type item.type_ item.date r.date with
      | Except.ok t =>
          let cd := setClient s1.client_dict r.id
            (ClientEntry.mk t (item.duration + 1) r.date)
          ({ s1 with client_dict := cd }, none)
      | Except.error e =>
          let cd := setClient s1.client_dict r.id
            (ClientEntry.mk item.type_ (item.duration + 1) item.date)
          ({ s1 with client_dict := cd }, some e)
  | none =>
      let cd := s1.client_dict ++ [(r.id, ClientEntry.mk Cadence.oneOff 1 r.date)]
      ({ s1 with client_dict := cd }, none)

/-- The empty state a Clients object starts from in __init__. -/
def initState : ClientsState := ⟨[], [], (0, 0, 0)⟩

/-- State after one record, ignoring a possible error (used to describe the
state reached by a run). -/
def stepState (s : ClientsState) (r : Transaction) : ClientsState :=
  (process_line s r).1

/-- State after a whole record list when every record succeeds. -/
def runState (rs : List Transaction) : ClientsState :=
  rs.foldl stepState initState

/-- One step of Clients._process: a raised exception aborts the pass, so an
error state absorbs all later records. -/
def ingestStep (acc : ClientsState × Option SubError) (r : Transaction) :
    ClientsState × Option SubError :=
  match acc.2 with
  | some _ => acc
  | none => process_line acc.1 r

/-- Clients._process over a record stream: fold the records, stopping the
mutation at the first raised error (which the constructor propagates). -/
def ingestAll (rs : List Transaction) : ClientsState × Option SubError :=
  rs.foldl ingestStep (initState, none)

/-- A record list that Clients._process ingests without raising. -/
def Succeeds (rs : List Transaction) : Prop := (ingestAll rs).2 = none

instance (rs : List Transaction) : Decidable (Succeeds rs) := by
  unfold Succeeds
  infer_instance

instance {ε α : Type} [DecidableEq ε] [DecidableEq α] :
    DecidableEq (Except ε α) := fun a b =>
  match a, b with
  | Except.ok x, Except.ok y => decidable_of_iff (x = y) (by simp)
  | Except.error x, Except.error y => decidable_of_iff (x = y) (by simp)
  | Except.ok _, Except.error _ => isFalse (fun h => Except.noConfusion h)
  | Except.error _, Except.ok _ => isFalse (fun h => Except.noConfusion h)

/-- Duration unit labels produced by get_subscriber_category. -/
inductive DurUnit where
  | days
  | months
  | years
  | time
  deriving DecidableEq, Repr

/-- The unit chosen for each subscription type in get_subscriber_category
(default is the one-off unit). -/
def unit_of : Cadence → DurUnit
  | Cadence.daily => DurUnit.days
  | Cadence.monthly => DurUnit.months
  | Cadence.yearly => DurUnit.years
  | Cadence.oneOff => DurUnit.time

/-- Clients.get_subscriber_category: raise FileNotProcessedError when the
client dict is empty, else one formatted entry (id, type, duration, unit) per
stored client, in dict order. -/
def get_subscriber_category (s : ClientsState) :
    Except SubError (List (Nat × Cadence × Nat × DurUnit)) :=
  if s.client_dict = [] then Except.error SubError.fileNotProcessed
  else Except.ok
    (s.client_dict.map fun p => (p.1, p.2.type_, p.2.duration, unit_of p.2.type_))

/-- Clients.get_revenue_numbers: the yearly revenue ledger itself. -/
def get_revenue_numbers (s : ClientsState) : List (Nat × Int) := s.year_dict

/-- Clients.get_revenue_extrema: iterate the years of the ledger in dict
order; for each year whose successor year is also present, compare the delta
against the growth accumulator (non-negative and strictly larger) or the loss
accumulator (negative and strictly larger magnitude).  The accumulators start
at the sentinel (0, N/A); none plays the role of the string N/A. -/
def get_revenue_extrema (s : ClientsState) :
    (Int × Option Nat) × (Int × Option Nat) :=
  (keysA s.year_dict).foldl
    (fun acc prev_year =>
      match lookupA s.year_dict (prev_year + 1), lookupA s.year_dict prev_year with
      | some vEnd, some vPrev =>
          let diff := vEnd - vPrev
          if 0 ≤ diff ∧ acc.1.1 < diff then ((diff, some (prev_year + 1)), acc.2)
          else if diff < 0 ∧ |acc.2.1| < |diff| then (acc.1, (diff, some (prev_year + 1)))
          else acc
      | _, _ => acc)
    ((0, none), (0, none))

/-- Clients.predict_revenue: look up the revenue of the three tracked years
(most recent first, as the code does) and extrapolate linearly; a tracked
sentinel year that is not a ledger key raises KeyError. -/
def predict_revenue (s : ClientsState) : Except SubError Int :=
  let last_yr := s.last_three_years.2.2
  let thir_last_yr := s.last_three_years.1
  match lookupA s.year_dict last_yr with
  | none => Except.error (SubError.keyError last_yr)
  | some last =>
      match lookupA s.year_dict s.last_three_years.2.1 with
      | none => Except.error (SubError.keyError s.last_three_years.2.1)
      | some sec_last =>
          match lookupA s.year_dict thir_last_yr with
          | none => Except.error (SubError.keyError thir_last_yr)
          | some thir_last =>
              Except.ok
                ((last - sec_last) * ((last_yr : Int) - (thir_last_yr : Int) + 1)
                  + thir_last)

/-- Sum of the values of a ledger. -/
def sumVals (l : List (Nat × Int)) : Int := (l.map Prod.snd).sum

/-- Observation count stored for a client id, 0 when the id is absent. -/
def durAt (cd : List (Nat × ClientEntry)) (i : Nat) : Nat :=
  match lookupA cd i with
  | some item => item.duration
  | none => 0

/-- The qualifying consecutive-year pairs of a ledger, in dict iteration
order: for each stored year whose successor year is also stored, the pair
(successor year, revenue delta). -/
def qualPairs (yd : List (Nat × Int)) : List (Nat × Int) :=
  (keysA yd).filterMap fun y =>
    match lookupA yd (y + 1), lookupA yd y with
    | some vEnd, some vPrev => some (y + 1, vEnd - vPrev)
    | _, _ => none

/-- The growth accumulator update of get_revenue_extrema taken on its own. -/
def gstep (g : Int × Option Nat) (p : Nat × Int) : Int × Option Nat :=
  if 0 ≤ p.2 ∧ g.1 < p.2 then (p.2, some p.1) else g

/-- The loss accumulator update of get_revenue_extrema taken on its own. -/
def lstep (l : Int × Option Nat) (p : Nat × Int) : Int × Option Nat :=
  if p.2 < 0 ∧ |l.1| < |p.2| then (p.2, some p.1) else l

/-- Characterization of the growth report over a pair list: either the
sentinel with no strictly positive delta present, or the first pair attaining
the (positive) maximum delta. -/
def FirstMaxPos (ps : List (Nat × Int)) (g : Int × Option Nat) : Prop :=
  (g = (0, none) ∧ ∀ p ∈ ps, p.2 ≤ 0) ∨
  (0 < g.1 ∧ (∀ p ∈ ps, p.2 ≤ g.1) ∧
    ∃ y l1 l2, g.2 = some y ∧ ps = l1 ++ (y, g.1) :: l2 ∧ ∀ p ∈ l1, p.2 < g.1)

/-- Characterization of the loss report over a pair list: either the sentinel
with no negative delta present, or the first pair attaining the (negative)
minimum delta. -/
def FirstMinNeg (ps : List (Nat × Int)) (l : Int × Option Nat) : Prop :=
  (l = (0, none) ∧ ∀ p ∈ ps, 0 ≤ p.2) ∨
  (l.1 < 0 ∧ (∀ p ∈ ps, l.1 ≤ p.2) ∧
    ∃ y l1 l2, l.2 = some y ∧ ps = l1 ++ (y, l.1) :: l2 ∧ ∀ p ∈ l1, l.1 < p.2)

/-- Invariant tying the recent-years triple to the set of ledger years: the
triple is sorted, strictly so where nonzero, its nonzero slots are ledger
years, and every ledger year is a slot or lies below the smallest slot. -/
def SlotsInv (t : Nat × Nat × Nat) (ks : List Nat) : Prop :=
  t.1 ≤ t.2.1 ∧ t.2.1 ≤ t.2.2 ∧
  (t.2.1 ≠ 0 → t.1 < t.2.1) ∧ (t.2.2 ≠ 0 → t.2.1 < t.2.2) ∧
  (t.1 ≠ 0 → t.1 ∈ ks) ∧ (t.2.1 ≠ 0 → t.2.1 ∈ ks) ∧ (t.2.2 ≠ 0 → t.2.2 ∈ ks) ∧
  (∀ y ∈ ks, y = t.1 ∨ y = t.2.1 ∨ y = t.2.2 ∨ y < t.1)

/-- Shorthand for a concrete transaction record. -/
def trec (i : Nat) (a : Int) (y : Nat) (d : Int) : Transaction := ⟨i, a, ⟨y, d⟩⟩

/-- One subscriber billed at day deltas 10, 15, 40 (spec example: a daily
subscriber with a later long gap). -/
def exLongGap : List Transaction :=
  [trec 7 5 2000 0, trec 7 5 2000 10, trec 7 5 2000 25, trec 7 5 2000 65]

/-- Three records giving the ledger 2012 maps to 100, 2013 to 150, 2014 to
170 (the forecast example of the spec). -/
def exPredict : List Transaction :=
  [trec 1 100 2012 0, trec 2 150 2013 0, trec 3 170 2014 0]

/-- Two records giving a ledger with exactly two distinct years. -/
def exTwoYears : List Transaction :=
  [trec 1 100 2013 0, trec 2 150 2014 0]

/-- Three records giving the ledger 2010 maps to 100, 2011 to 300, 2012 to
250 (the extrema example of the spec). -/
def exExtrema : List Transaction :=
  [trec 1 100 2010 0, trec 2 300 2011 0, trec 3 250 2012 0]

/-- Two records with equal amounts in consecutive years: the only qualifying
pair has delta exactly 0. -/
def exFlat : List Transaction :=
  [trec 1 100 2000 0, trec 2 100 2001 0]

/-- One subscriber billed at day deltas 29, 29 (the monthly example). -/
def exMonthly : List Transaction :=
  [trec 1 5 2000 0, trec 1 5 2000 29, trec 1 5 2000 58]

/-- A single record for one subscriber. -/
def exSingle : List Transaction := [trec 1 5 2000 0]

/-- Two records of one subscriber with identical dates. -/
def exDup : List Transaction := [trec 1 5 2000 5, trec 1 5 2000 5]

/-! Basic association-list lemmas. -/
/-! Basic association-list lemmas. -/

theorem keysA_cons {α : Type} (p : Nat × α) (rest : List (Nat × α)) :
    keysA (p :: rest) = p.1 :: keysA rest := by
  simp [keysA]

theorem lookupA_eq_none_iff {α : Type} (l : List (Nat × α)) (k : Nat) :
    lookupA l k = none ↔ k ∉ keysA l := by
  induction l with
  | nil => simp [lookupA, keysA]
  | cons p rest ih =>
      rw [keysA_cons, List.mem_cons]
      by_cases h : p.1 = k
      · simp [lookupA, h]
      · simp only [lookupA, if_neg h]
        rw [ih]
        push_neg
        constructor
        · intro hn
          exact ⟨fun hh => h hh.symm, hn⟩
        · intro hn
          exact hn.2

theorem mem_keysA_iff {α : Type} (l : List (Nat × α)) (k : Nat) :
    k ∈ keysA l ↔ ∃ v, lookupA l k = some v := by
  induction l with
  | nil => simp [lookupA, keysA]
  | cons p rest ih =>
      rw [keysA_cons, List.mem_cons]
      by_cases h : p.1 = k
      · simp [lookupA, h]
      · simp only [lookupA, if_neg h]
        rw [ih]
        constructor
        · intro hc
          rcases hc with hc | hc
          · exact absurd hc.symm h
          · exact hc
        · intro hc
          exact Or.inr hc

theorem lookupA_some_mem {α : Type} {l : List (Nat × α)} {k : Nat} {v : α}
    (h : lookupA l k = some v) : (k, v) ∈ l := by
  induction l with
  | nil => simp [lookupA] at h
  | cons p rest ih =>
      by_cases hp : p.1 = k
      · simp only [lookupA, if_pos hp, Option.some.injEq] at h
        have hkv : (k, v) = p := by rw [← hp, ← h]
        rw [hkv]
        exact List.mem_cons_self p rest
      · simp only [lookupA, if_neg hp] at h
        exact List.mem_cons_of_mem _ (ih h)

theorem lookupA_append_of_none {α : Type} {l : List (Nat × α)} (m : List (Nat × α))
    {k : Nat} (h : lookupA l k = none) : lookupA (l ++ m) k = lookupA m k := by
  induction l with
  | nil => simp
  | cons p rest ih =>
      by_cases hp : p.1 = k
      · simp [lookupA, hp] at h
      · simp only [lookupA, if_neg hp] at h
        simp only [List.cons_append, lookupA, if_neg hp]
        exact ih h

theorem lookupA_append_of_some {α : Type} {l : List (Nat × α)} (m : List (Nat × α))
    {k : Nat} {v : α} (h : lookupA l k = some v) : lookupA (l ++ m) k = some v := by
  induction l with
  | nil => simp [lookupA] at h
  | cons p rest ih =>
      by_cases hp : p.1 = k
      · simp only [lookupA, if_pos hp] at h
        simp only [List.cons_append, lookupA, if_pos hp]
        exact h
      · simp only [lookupA, if_neg hp] at h
        simp only [List.cons_append, lookupA, if_neg hp]
        exact ih h

/-! Lemmas about the ledger update bumpYear. -/

theorem keysA_bumpYear (yd : List (Nat × Int)) (y : Nat) (a : Int) :
    keysA (bumpYear yd y a) =
      if y ∈ keysA yd then keysA yd else keysA yd ++ [y] := by
  induction yd with
  | nil => simp [bumpYear, keysA]
  | cons p rest ih =>
      by_cases hp : p.1 = y
      · simp [bumpYear, keysA, hp]
      · have hne : ¬ y = p.1 := fun h => hp h.symm
        simp only [bumpYear, if_neg hp, keysA_cons, List.mem_cons]
        rw [ih]
        by_cases hm : y ∈ keysA rest <;> simp [hm, hne]

theorem sumVals_bumpYear (yd : List (Nat × Int)) (y : Nat) (a : Int) :
    sumVals (bumpYear yd y a) = sumVals yd + a := by
  induction yd with
  | nil => simp [bumpYear, sumVals]
  | cons p rest ih =>
      by_cases hp : p.1 = y
      · simp [bumpYear, sumVals, hp]
        ring
      · simp only [bumpYear, if_neg hp, sumVals, List.map_cons, List.sum_cons] at ih ⊢
        rw [ih]
        ring

theorem lookupD_bumpYear (yd : List (Nat × Int)) (y : Nat) (a : Int) (z : Nat) :
    lookupD (bumpYear yd y a) z = lookupD yd z + (if z = y then a else 0) := by
  induction yd with
  | nil =>
      by_cases hz : z = y
      · simp [bumpYear, lookupD, lookupA, hz]
      · have hyz : ¬ y = z := fun h => hz h.symm
        simp [bumpYear, lookupD, lookupA, hz, hyz]
  | cons p rest ih =>
      by_cases hp : p.1 = y
      · by_cases hz : z = y
        · have hpz : p.1 = z := by rw [hp, hz]
          simp [bumpYear, lookupD, lookupA, hp, hpz, hz]
        · have hpz : ¬ p.1 = z := by
            rw [hp]
            exact fun h => hz h.symm
          have hyz : ¬ y = z := fun hh => hz hh.symm
          simp [bumpYear, lookupD, lookupA, hp, hpz, hz, hyz]
      · by_cases hz : p.1 = z
        · have hzy : ¬ z = y := by
            rw [← hz]
            exact hp
          simp [bumpYear, lookupD, lookupA, hp, hz, hzy]
        · simp only [bumpYear, if_neg hp, lookupD, lookupA, if_neg hz]
          simpa [lookupD] using ih

/-! Lemmas about the client update setClient. -/

theorem keysA_setClient (l : List (Nat × ClientEntry)) (key : Nat) (e : ClientEntry) :
    keysA (setClient l key e) = keysA l := by
  induction l with
  | nil => simp [setClient]
  | cons p rest ih =>
      by_cases hp : p.1 = key
      · simp [setClient, keysA, hp]
      · simp only [setClient, if_neg hp, keysA_cons]
        rw [ih]

theorem setClient_ne_nil {l : List (Nat × ClientEntry)} (h : l ≠ [])
    (key : Nat) (e : ClientEntry) : setClient l key e ≠ [] := by
  cases l with
  | nil => exact absurd rfl h
  | cons p rest =>
      by_cases hp : p.1 = key <;> simp [setClient, hp]

theorem lookupA_setClient_self {l : List (Nat × ClientEntry)} {key : Nat}
    (e : ClientEntry) (h : key ∈ keysA l) :
    lookupA (setClient l key e) key = some e := by
  induction l with
  | nil => simp [keysA] at h
  | cons p rest ih =>
      by_cases hp : p.1 = key
      · simp [setClient, lookupA, hp]
      · have hkm : key ∈ keysA rest := by
          rw [keysA_cons, List.mem_cons] at h
          rcases h with h | h
          · exact absurd h.symm hp
          · exact h
        simp only [setClient, if_neg hp, lookupA, if_neg hp]
        exact ih hkm

theorem lookupA_setClient_ne (l : List (Nat × ClientEntry)) (key : Nat)
    (e : ClientEntry) {i : Nat} (h : i ≠ key) :
    lookupA (setClient l key e) i = lookupA l i := by
  induction l with
  | nil => simp [setClient]
  | cons p rest ih =>
      by_cases hp : p.1 = key
      · have hpi : ¬ p.1 = i := by
          rw [hp]
          exact fun hh => h hh.symm
        have hki : ¬ key = i := fun hh => h hh.symm
        simp [setClient, lookupA, hp, hpi, hki]
      · by_cases hq : p.1 = i
        · have hik : ¬ i = key := by
            rw [← hq]
            exact hp
          simp [setClient, lookupA, hp, hq, hik]
        · simp only [setClient, if_neg hp, lookupA, if_neg hq]
          exact ih

/-! One processing step: shape of the resulting state. -/

theorem keysA_append {α : Type} (l m : List (Nat × α)) :
    keysA (l ++ m) = keysA l ++ keysA m := by
  simp [keysA]

theorem process_year_client (s : ClientsState) (y : Nat) (a : Int) :
    (process_year s y a).client_dict = s.client_dict := rfl

theorem stepState_year_dict (s : ClientsState) (r : Transaction) :
    (stepState s r).year_dict = bumpYear s.year_dict r.date.year r.amount := by
  dsimp only [stepState, process_line]
  split
  · split
    · rfl
    · rfl
  · rfl

theorem stepState_slots (s : ClientsState) (r : Transaction) :
    (stepState s r).last_three_years = upd3 s.last_three_years r.date.year := by
  dsimp only [stepState, process_line]
  split
  · split
    · rfl
    · rfl
  · rfl

theorem set_type_nonpos {t : Cadence} {d1 d2 : SubDate}
    (h : d2.serial - d1.serial ≤ 0) :
    set_type t d1 d2 = Except.error SubError.invalidDateType := by
  dsimp only [set_type]
  split_ifs with h1 h2 h3
  · exact absurd h1.1 (by omega)
  · exact absurd h2.1.1 (by omega)
  · exact absurd h3.1 (by omega)
  · rfl

theorem process_line_new {s : ClientsState} {r : Transaction}
    (hl : lookupA s.client_dict r.id = none) :
    process_line s r =
      ({ client_dict := s.client_dict ++ [(r.id, ClientEntry.mk Cadence.oneOff 1 r.date)],
         year_dict := bumpYear s.year_dict r.date.year r.amount,
         last_three_years := upd3 s.last_three_years r.date.year }, none) := by
  dsimp only [process_line]
  split
  · next item2 heq =>
      rw [process_year_client, hl] at heq
      exact Option.noConfusion heq
  · next heq =>
      rfl

theorem process_line_known {s : ClientsState} {r : Transaction} {item : ClientEntry}
    {t : Cadence} (hl : lookupA s.client_dict r.id = some item)
    (ht : set_type item.type_ item.date r.date = Except.ok t) :
    process_line s r =
      ({ client_dict :=
           setClient s.client_dict r.id (ClientEntry.mk t (item.duration + 1) r.date),
         year_dict := bumpYear s.year_dict r.date.year r.amount,
         last_three_years := upd3 s.last_three_years r.date.year }, none) := by
  dsimp only [process_line]
  split
  · next item2 heq =>
      rw [process_year_client, hl] at heq
      injection heq with h2
      subst h2
      split
      · next t2 heq2 =>
          rw [ht] at heq2
          injection heq2 with h3
          subst h3
          rfl
      · next e2 heq2 =>
          rw [ht] at heq2
          exact Except.noConfusion heq2
  · next heq =>
      rw [process_year_client, hl] at heq
      exact Option.noConfusion heq

theorem process_line_error {s : ClientsState} {r : Transaction} {item : ClientEntry}
    {e : SubError} (hl : lookupA s.client_dict r.id = some item)
    (he : set_type item.type_ item.date r.date = Except.error e) :
    process_line s r =
      ({ client_dict :=
           setClient s.client_dict r.id
             (ClientEntry.mk item.type_ (item.duration + 1) item.date),
         year_dict := bumpYear s.year_dict r.date.year r.amount,
         last_three_years := upd3 s.last_three_years r.date.year }, some e) := by
  dsimp only [process_line]
  split
  · next item2 heq =>
      rw [process_year_client, hl] at heq
      injection heq with h2
      subst h2
      split
      · next t2 heq2 =>
          rw [he] at heq2
          exact Except.noConfusion heq2
      · next e2 heq2 =>
          rw [he] at heq2
          injection heq2 with h3
          subst h3
          rfl
  · next heq =>
      rw [process_year_client, hl] at heq
      exact Option.noConfusion heq

theorem stepState_client_mem (s : ClientsState) (r : Transaction) (i : Nat) :
    i ∈ keysA (stepState s r).client_dict ↔
      (i ∈ keysA s.client_dict ∨ i = r.id) := by
  unfold stepState
  cases hl : lookupA s.client_dict r.id with
  | some item =>
      have hm : r.id ∈ keysA s.client_dict := (mem_keysA_iff _ _).2 ⟨item, hl⟩
      cases hst : set_type item.type_ item.date r.date with
      | ok t =>
          rw [process_line_known hl hst]
          dsimp only
          rw [keysA_setClient]
          constructor
          · exact fun h => Or.inl h
          · rintro (h | h)
            · exact h
            · rw [h]
              exact hm
      | error e =>
          rw [process_line_error hl hst]
          dsimp only
          rw [keysA_setClient]
          constructor
          · exact fun h => Or.inl h
          · rintro (h | h)
            · exact h
            · rw [h]
              exact hm
  | none =>
      rw [process_line_new hl]
      dsimp only
      rw [keysA_append]
      simp [keysA]

theorem stepState_client_nodup (s : ClientsState) (r : Transaction)
    (h : (keysA s.client_dict).Nodup) :
    (keysA (stepState s r).client_dict).Nodup := by
  unfold stepState
  cases hl : lookupA s.client_dict r.id with
  | some item =>
      cases hst : set_type item.type_ item.date r.date with
      | ok t =>
          rw [process_line_known hl hst]
          dsimp only
          rw [keysA_setClient]
          exact h
      | error e =>
          rw [process_line_error hl hst]
          dsimp only
          rw [keysA_setClient]
          exact h
  | none =>
      rw [process_line_new hl]
      dsimp only
      rw [keysA_append]
      have hnm : r.id ∉ keysA s.client_dict := (lookupA_eq_none_iff _ _).1 hl
      have hone : keysA [(r.id, ClientEntry.mk Cadence.oneOff 1 r.date)] = [r.id] := by
        simp [keysA]
      rw [hone, List.nodup_append]
      refine ⟨h, List.nodup_singleton _, ?_⟩
      intro x hx hxx
      rw [List.mem_singleton] at hxx
      rw [hxx] at hx
      exact hnm hx

theorem stepState_client_ne_nil (s : ClientsState) (r : Transaction) :
    (stepState s r).client_dict ≠ [] := by
  unfold stepState
  cases hl : lookupA s.client_dict r.id with
  | some item =>
      have hne : s.client_dict ≠ [] := by
        intro hnil
        rw [hnil] at hl
        exact Option.noConfusion hl
      cases hst : set_type item.type_ item.date r.date with
      | ok t =>
          rw [process_line_known hl hst]
          exact setClient_ne_nil hne _ _
      | error e =>
          rw [process_line_error hl hst]
          exact setClient_ne_nil hne _ _
  | none =>
      rw [process_line_new hl]
      simp

theorem durAt_stepState (s : ClientsState) (r : Transaction) (i : Nat) :
    durAt (stepState s r).client_dict i =
      durAt s.client_dict i + (if r.id = i then 1 else 0) := by
  unfold stepState
  cases hl : lookupA s.client_dict r.id with
  | some item =>
      have hm : r.id ∈ keysA s.client_dict := (mem_keysA_iff _ _).2 ⟨item, hl⟩
      cases hst : set_type item.type_ item.date r.date with
      | ok t =>
          rw [process_line_known hl hst]
          dsimp only
          by_cases hi : r.id = i
          · rw [← hi]
            rw [durAt, durAt, lookupA_setClient_self _ hm, hl]
            simp
          · have hin : i ≠ r.id := fun hh => hi hh.symm
            rw [durAt, durAt, lookupA_setClient_ne _ _ _ hin]
            simp [hi]
      | error e =>
          rw [process_line_error hl hst]
          dsimp only
          by_cases hi : r.id = i
          · rw [← hi]
            rw [durAt, durAt, lookupA_setClient_self _ hm, hl]
            simp
          · have hin : i ≠ r.id := fun hh => hi hh.symm
            rw [durAt, durAt, lookupA_setClient_ne _ _ _ hin]
            simp [hi]
  | none =>
      rw [process_line_new hl]
      dsimp only
      by_cases hi : r.id = i
      · rw [← hi]
        rw [durAt, durAt, lookupA_append_of_none _ hl, hl]
        simp [lookupA]
      · have hin : i ≠ r.id := fun hh => hi hh.symm
        rw [durAt, durAt]
        cases hli : lookupA s.client_dict i with
        | some v =>
            rw [lookupA_append_of_some _ hli]
            simp [hi]
        | none =>
            rw [lookupA_append_of_none _ hli]
            simp [lookupA, hin, hi]

/-! Whole-pass lemmas. -/

theorem foldl_ingestStep_absorb (rs : List Transaction)
    (acc : ClientsState × Option SubError) (e : SubError) (h : acc.2 = some e) :
    List.foldl ingestStep acc rs = acc := by
  induction rs generalizing acc with
  | nil => rfl
  | cons r rest ih =>
      rw [List.foldl_cons]
      have hstep : ingestStep acc r = acc := by
        unfold ingestStep
        rw [h]
      rw [hstep]
      exact ih acc h

theorem ingestAll_eq_runState {rs : List Transaction} (h : Succeeds rs) :
    (ingestAll rs).1 = runState rs := by
  unfold Succeeds ingestAll at h
  unfold ingestAll runState
  suffices hgen : ∀ (l : List Transaction) (s : ClientsState),
      (List.foldl ingestStep (s, none) l).2 = none →
      (List.foldl ingestStep (s, none) l).1 = List.foldl stepState s l by
    exact hgen rs initState h
  intro l
  induction l with
  | nil =>
      intro s _
      rfl
  | cons r rest ih =>
      intro s hsucc
      rw [List.foldl_cons] at hsucc ⊢
      rw [List.foldl_cons]
      have h1 : ingestStep (s, none) r = process_line s r := rfl
      rw [h1] at hsucc ⊢
      cases hp : (process_line s r).2 with
      | some e =>
          have habs := foldl_ingestStep_absorb rest (process_line s r) e hp
          rw [habs, hp] at hsucc
          exact Option.noConfusion hsucc
      | none =>
          have hps : process_line s r = ((process_line s r).1, none) := by
            rw [← hp]
          rw [hps] at hsucc ⊢
          exact ih (process_line s r).1 hsucc

theorem run_year_dict (rs : List Transaction) (s : ClientsState) :
    (List.foldl stepState s rs).year_dict =
      List.foldl (fun yd r => bumpYear yd r.date.year r.amount) s.year_dict rs := by
  induction rs generalizing s with
  | nil => rfl
  | cons r rest ih =>
      rw [List.foldl_cons, List.foldl_cons, ih, stepState_year_dict]

theorem bumpFold_sum (rs : List Transaction) (yd : List (Nat × Int)) :
    sumVals (List.foldl (fun yd r => bumpYear yd r.date.year r.amount) yd rs) =
      sumVals yd + (rs.map Transaction.amount).sum := by
  induction rs generalizing yd with
  | nil => simp
  | cons r rest ih =>
      rw [List.foldl_cons, ih, sumVals_bumpYear]
      simp only [List.map_cons, List.sum_cons]
      ring

theorem bumpFold_lookupD (rs : List Transaction) (yd : List (Nat × Int)) (z : Nat) :
    lookupD (List.foldl (fun yd r => bumpYear yd r.date.year r.amount) yd rs) z =
      lookupD yd z + ((rs.filter fun r => r.date.year == z).map Transaction.amount).sum := by
  induction rs generalizing yd with
  | nil => simp
  | cons r rest ih =>
      rw [List.foldl_cons, ih, lookupD_bumpYear]
      by_cases hz : r.date.year = z
      · subst hz
        rw [List.filter_cons_of_pos (by simp), List.map_cons, List.sum_cons, if_pos rfl]
        ring
      · have hzz : ¬ z = r.date.year := fun hh => hz hh.symm
        rw [List.filter_cons_of_neg (by simp [hz]), if_neg hzz]
        ring

theorem run_year_keys (rs : List Transaction) (s : ClientsState) (y : Nat)
    (h : y ∈ keysA (List.foldl stepState s rs).year_dict) :
    y ∈ keysA s.year_dict ∨ ∃ r ∈ rs, r.date.year = y := by
  induction rs generalizing s with
  | nil => exact Or.inl h
  | cons r rest ih =>
      rw [List.foldl_cons] at h
      rcases ih (stepState s r) h with hh | hh
      · rw [stepState_year_dict, keysA_bumpYear] at hh
        by_cases hm : r.date.year ∈ keysA s.year_dict
        · rw [if_pos hm] at hh
          exact Or.inl hh
        · rw [if_neg hm] at hh
          rcases List.mem_append.1 hh with hh | hh
          · exact Or.inl hh
          · rw [List.mem_singleton] at hh
            exact Or.inr ⟨r, List.mem_cons_self _ _, hh.symm⟩
      · rcases hh with ⟨r2, hr2, hy⟩
        exact Or.inr ⟨r2, List.mem_cons_of_mem _ hr2, hy⟩

theorem run_client_mem (rs : List Transaction) (s : ClientsState) (i : Nat) :
    i ∈ keysA (List.foldl stepState s rs).client_dict ↔
      (i ∈ keysA s.client_dict ∨ i ∈ rs.map Transaction.id) := by
  induction rs generalizing s with
  | nil => simp
  | cons r rest ih =>
      rw [List.foldl_cons, ih (stepState s r)]
      rw [stepState_client_mem]
      simp only [List.map_cons, List.mem_cons]
      tauto

theorem run_client_nodup (rs : List Transaction) (s : ClientsState)
    (h : (keysA s.client_dict).Nodup) :
    (keysA (List.foldl stepState s rs).client_dict).Nodup := by
  induction rs generalizing s with
  | nil => exact h
  | cons r rest ih =>
      rw [List.foldl_cons]
      exact ih _ (stepState_client_nodup s r h)

theorem run_client_ne_nil (rs : List Transaction) (s : ClientsState)
    (h : s.client_dict ≠ []) :
    (List.foldl stepState s rs).client_dict ≠ [] := by
  induction rs generalizing s with
  | nil => exact h
  | cons r rest ih =>
      rw [List.foldl_cons]
      exact ih _ (stepState_client_ne_nil s r)

theorem run_durAt (rs : List Transaction) (s : ClientsState) (i : Nat) :
    durAt (List.foldl stepState s rs).client_dict i =
      durAt s.client_dict i + (rs.filter fun r => r.id == i).length := by
  induction rs generalizing s with
  | nil => simp
  | cons r rest ih =>
      rw [List.foldl_cons, ih, durAt_stepState]
      by_cases hi : r.id = i
      · rw [if_pos hi, List.filter_cons_of_pos (by simp [hi]), List.length_cons]
        omega
      · rw [if_neg hi, List.filter_cons_of_neg (by simp [hi])]
        omega

/-! The recent-years tracker invariant. -/

theorem slotsInv_init : SlotsInv (0, 0, 0) ([] : List Nat) := by
  refine ⟨le_refl 0, le_refl 0, ?_, ?_, ?_, ?_, ?_, ?_⟩ <;> simp

theorem slotsInv_upd3 {t : Nat × Nat × Nat} {ks : List Nat} (h : SlotsInv t ks)
    (y : Nat) :
    SlotsInv (upd3 t y) (if y ∈ ks then ks else ks ++ [y]) := by
  obtain ⟨a, b, c⟩ := t
  obtain ⟨h1, h2, h3, h4, h5, h6, h7, h8⟩ := h
  dsimp only at h1 h2 h3 h4 h5 h6 h7 h8
  unfold upd3
  dsimp only
  by_cases hmem : y ∈ ks
  · rw [if_pos hmem]
    by_cases hy : y = a ∨ y = b ∨ y = c
    · rw [if_pos hy]
      exact ⟨h1, h2, h3, h4, h5, h6, h7, h8⟩
    · rw [if_neg hy]
      push_neg at hy
      have hlt : y < a := by
        have := h8 y hmem
        omega
      rw [if_neg (by omega), if_neg (by omega), if_neg (by omega)]
      exact ⟨h1, h2, h3, h4, h5, h6, h7, h8⟩
  · rw [if_neg hmem]
    by_cases hy : y = a ∨ y = b ∨ y = c
    · rw [if_pos hy]
      refine ⟨h1, h2, h3, h4, ?_, ?_, ?_, ?_⟩
      · intro ha
        exact List.mem_append_left _ (h5 ha)
      · intro hb
        exact List.mem_append_left _ (h6 hb)
      · intro hc
        exact List.mem_append_left _ (h7 hc)
      · intro z hz
        rcases List.mem_append.1 hz with hz | hz
        · exact h8 z hz
        · rw [List.mem_singleton] at hz
          subst hz
          rcases hy with hy | hy | hy
          · exact Or.inl hy
          · exact Or.inr (Or.inl hy)
          · exact Or.inr (Or.inr (Or.inl hy))
    · rw [if_neg hy]
      push_neg at hy
      obtain ⟨hya, hyb, hyc⟩ := hy
      have hself : y ∈ ks ++ [y] := List.mem_append_right _ (List.mem_singleton_self y)
      by_cases hgt : c < y
      · rw [if_pos hgt]
        unfold SlotsInv
        dsimp only
        refine ⟨h2, by omega, fun hc => h4 hc, fun _ => hgt, ?_, ?_, ?_, ?_⟩
        · intro hb
          exact List.mem_append_left _ (h6 hb)
        · intro hc
          exact List.mem_append_left _ (h7 hc)
        · intro _
          exact hself
        · intro z hz
          rcases List.mem_append.1 hz with hz | hz
          · have := h8 z hz
            omega
          · rw [List.mem_singleton] at hz
            omega
      · rw [if_neg hgt]
        by_cases hmid : b < y
        · rw [if_pos hmid]
          unfold SlotsInv
          dsimp only
          refine ⟨by omega, by omega, fun _ => hmid, fun _ => by omega, ?_, ?_, ?_, ?_⟩
          · intro hb
            exact List.mem_append_left _ (h6 hb)
          · intro _
            exact hself
          · intro hc
            exact List.mem_append_left _ (h7 hc)
          · intro z hz
            rcases List.mem_append.1 hz with hz | hz
            · have := h8 z hz
              omega
            · rw [List.mem_singleton] at hz
              omega
        · rw [if_neg hmid]
          by_cases hlow : a < y
          · rw [if_pos hlow]
            unfold SlotsInv
            dsimp only
            refine ⟨by omega, h2, fun _ => by omega, h4, ?_, ?_, ?_, ?_⟩
            · intro _
              exact hself
            · intro hb
              exact List.mem_append_left _ (h6 hb)
            · intro hc
              exact List.mem_append_left _ (h7 hc)
            · intro z hz
              rcases List.mem_append.1 hz with hz | hz
              · have := h8 z hz
                omega
              · rw [List.mem_singleton] at hz
                omega
          · rw [if_neg hlow]
            unfold SlotsInv
            dsimp only
            refine ⟨h1, h2, h3, h4, ?_, ?_, ?_, ?_⟩
            · intro ha
              exact List.mem_append_left _ (h5 ha)
            · intro hb
              exact List.mem_append_left _ (h6 hb)
            · intro hc
              exact List.mem_append_left _ (h7 hc)
            · intro z hz
              rcases List.mem_append.1 hz with hz | hz
              · exact h8 z hz
              · rw [List.mem_singleton] at hz
                omega

theorem slotsInv_run_aux (rs : List Transaction) (s : ClientsState)
    (h : SlotsInv s.last_three_years (keysA s.year_dict)) :
    SlotsInv (List.foldl stepState s rs).last_three_years
      (keysA (List.foldl stepState s rs).year_dict) := by
  induction rs generalizing s with
  | nil => exact h
  | cons r rest ih =>
      rw [List.foldl_cons]
      refine ih _ ?_
      rw [stepState_slots, stepState_year_dict, keysA_bumpYear]
      exact slotsInv_upd3 h r.date.year

theorem slotsInv_run (rs : List Transaction) :
    SlotsInv (runState rs).last_three_years (keysA (runState rs).year_dict) := by
  unfold runState
  refine slotsInv_run_aux rs initState ?_
  simpa [initState, keysA] using slotsInv_init

theorem slotsInv_top3 {t : Nat × Nat × Nat} {ks : List Nat} (h : SlotsInv t ks)
    {p q u : Nat} (hp : p ∈ ks) (hq : q ∈ ks) (hu : u ∈ ks)
    (hpq : p < q) (hqu : q < u) :
    t.1 ∈ ks ∧ t.2.1 ∈ ks ∧ t.2.2 ∈ ks ∧ t.1 < t.2.1 ∧ t.2.1 < t.2.2 ∧
      ∀ y ∈ ks, y = t.2.1 ∨ y = t.2.2 ∨ y ≤ t.1 := by
  obtain ⟨a, b, c⟩ := t
  obtain ⟨h1, h2, h3, h4, h5, h6, h7, h8⟩ := h
  dsimp only at h1 h2 h3 h4 h5 h6 h7 h8 ⊢
  have hdp := h8 p hp
  have hdq := h8 q hq
  have hdu := h8 u hu
  have horder : a < b ∧ b < c := by omega
  have hmema : a ∈ ks := by
    by_cases ha : a = 0
    · have hone : a = p ∨ a = q ∨ a = u := by omega
      rcases hone with hone | hone | hone
      · rw [hone]
        exact hp
      · rw [hone]
        exact hq
      · rw [hone]
        exact hu
    · exact h5 ha
  have hmemb : b ∈ ks := h6 (by omega)
  have hmemc : c ∈ ks := h7 (by omega)
  refine ⟨hmema, hmemb, hmemc, horder.1, horder.2, ?_⟩
  intro y hy
  have := h8 y hy
  omega

theorem slots_eq_top3 {t : Nat × Nat × Nat} {ks : List Nat} (h : SlotsInv t ks)
    {y0 y1 y2 : Nat} (h0 : y0 ∈ ks) (h1 : y1 ∈ ks) (h2 : y2 ∈ ks)
    (h01 : y0 < y1) (h12 : y1 < y2)
    (hdom : ∀ y ∈ ks, y = y1 ∨ y = y2 ∨ y ≤ y0) :
    t = (y0, y1, y2) := by
  obtain ⟨hka, hkb, hkc, hab, hbc, hd⟩ := slotsInv_top3 h h0 h1 h2 h01 h12
  have d0 := hdom t.1 hka
  have d1 := hdom t.2.1 hkb
  have d2 := hdom t.2.2 hkc
  have e0 := hd y0 h0
  have e1 := hd y1 h1
  have e2 := hd y2 h2
  obtain ⟨a, b, c⟩ := t
  dsimp only at d0 d1 d2 e0 e1 e2 hab hbc
  have : a = y0 ∧ b = y1 ∧ c = y2 := by omega
  obtain ⟨ha, hb, hc⟩ := this
  subst ha
  subst hb
  subst hc
  rfl

theorem lookupA_of_mem {α : Type} {l : List (Nat × α)} {k : Nat}
    (h : k ∈ keysA l) : ∃ v, lookupA l k = some v :=
  (mem_keysA_iff l k).1 h

theorem predict_of_slots {s : ClientsState} {y0 y1 y2 : Nat}
    (hs : s.last_three_years = (y0, y1, y2))
    (h0 : y0 ∈ keysA s.year_dict) (h1 : y1 ∈ keysA s.year_dict)
    (h2 : y2 ∈ keysA s.year_dict) :
    predict_revenue s =
      Except.ok ((lookupD s.year_dict y2 - lookupD s.year_dict y1) *
        ((y2 : Int) - (y0 : Int) + 1) + lookupD s.year_dict y0) := by
  obtain ⟨v0, hl0⟩ := lookupA_of_mem h0
  obtain ⟨v1, hl1⟩ := lookupA_of_mem h1
  obtain ⟨v2, hl2⟩ := lookupA_of_mem h2
  unfold predict_revenue
  rw [hs]
  dsimp only
  rw [hl0, hl1, hl2]
  dsimp only
  rw [lookupD, lookupD, lookupD, hl0, hl1, hl2]
  rfl

/-! The revenue extrema fold, split into its growth and loss components. -/

theorem extremaStep_split (acc : (Int × Option Nat) × (Int × Option Nat))
    (yEnd : Nat) (diff : Int) :
    (if 0 ≤ diff ∧ acc.1.1 < diff then ((diff, some yEnd), acc.2)
     else if diff < 0 ∧ |acc.2.1| < |diff| then (acc.1, (diff, some yEnd))
     else acc) =
      (gstep acc.1 (yEnd, diff), lstep acc.2 (yEnd, diff)) := by
  unfold gstep lstep
  dsimp only
  by_cases hA : 0 ≤ diff ∧ acc.1.1 < diff
  · have hB : ¬ (diff < 0 ∧ |acc.2.1| < |diff|) := by
      intro hc
      exact absurd hc.1 (by omega)
    rw [if_pos hA, if_pos hA, if_neg hB]
  · rw [if_neg hA, if_neg hA]
    by_cases hB : diff < 0 ∧ |acc.2.1| < |diff|
    · rw [if_pos hB, if_pos hB]
    · rw [if_neg hB, if_neg hB]

theorem extremaFold_split (yd : List (Nat × Int)) (ks : List Nat)
    (acc : (Int × Option Nat) × (Int × Option Nat)) :
    List.foldl
      (fun acc prev_year =>
        match lookupA yd (prev_year + 1), lookupA yd prev_year with
        | some vEnd, some vPrev =>
            let diff := vEnd - vPrev
            if 0 ≤ diff ∧ acc.1.1 < diff then ((diff, some (prev_year + 1)), acc.2)
            else if diff < 0 ∧ |acc.2.1| < |diff| then (acc.1, (diff, some (prev_year + 1)))
            else acc
        | _, _ => acc) acc ks =
      (List.foldl gstep acc.1 (ks.filterMap fun y =>
          match lookupA yd (y + 1), lookupA yd y with
          | some vEnd, some vPrev => some (y + 1, vEnd - vPrev)
          | _, _ => none),
       List.foldl lstep acc.2 (ks.filterMap fun y =>
          match lookupA yd (y + 1), lookupA yd y with
          | some vEnd, some vPrev => some (y + 1, vEnd - vPrev)
          | _, _ => none)) := by
  induction ks generalizing acc with
  | nil => rfl
  | cons y rest ih =>
      rw [List.foldl_cons, List.filterMap_cons]
      cases he : lookupA yd (y + 1) with
      | none =>
          dsimp only
          exact ih acc
      | some vEnd =>
          cases hp : lookupA yd y with
          | none =>
              dsimp only
              exact ih acc
          | some vPrev =>
              dsimp only
              rw [extremaStep_split acc (y + 1) (vEnd - vPrev)]
              rw [ih (gstep acc.1 (y + 1, vEnd - vPrev), lstep acc.2 (y + 1, vEnd - vPrev))]
              rw [List.foldl_cons, List.foldl_cons]

theorem extrema_eq (s : ClientsState) :
    get_revenue_extrema s =
      ((qualPairs s.year_dict).foldl gstep (0, none),
       (qualPairs s.year_dict).foldl lstep (0, none)) := by
  unfold get_revenue_extrema qualPairs
  exact extremaFold_split s.year_dict (keysA s.year_dict) ((0, none), (0, none))

theorem gfold_char (ps : List (Nat × Int)) :
    FirstMaxPos ps (ps.foldl gstep (0, none)) := by
  induction ps using List.reverseRecOn with
  | nil =>
      exact Or.inl ⟨rfl, by simp⟩
  | append_singleton ps q ih =>
      rw [List.foldl_append, List.foldl_cons, List.foldl_nil]
      have hge : 0 ≤ (ps.foldl gstep (0, none)).1 := by
        rcases ih with ⟨hgg, _⟩ | ⟨hpos, _⟩
        · rw [hgg]
        · omega
      have hgs : gstep (ps.foldl gstep (0, none)) q =
          if 0 ≤ q.2 ∧ (ps.foldl gstep (0, none)).1 < q.2 then (q.2, some q.1)
          else ps.foldl gstep (0, none) := rfl
      rw [hgs]
      by_cases hc : 0 ≤ q.2 ∧ (ps.foldl gstep (0, none)).1 < q.2
      · rw [if_pos hc]
        right
        have hq2 : 0 < q.2 := by omega
        have hbnd : ∀ p ∈ ps, p.2 < q.2 := by
          intro p hp
          rcases ih with ⟨hgg, hall⟩ | ⟨hpos, hbound, _⟩
          · have := hall p hp
            have hz : (ps.foldl gstep ((0 : Int), (none : Option Nat))).1 = 0 := by
              rw [hgg]
            omega
          · have := hbound p hp
            omega
        refine ⟨hq2, ?_, q.1, ps, [], rfl, by simp, hbnd⟩
        intro p hp
        rcases List.mem_append.1 hp with hp | hp
        · exact le_of_lt (hbnd p hp)
        · rw [List.mem_singleton] at hp
          subst hp
          exact le_refl _
      · rw [if_neg hc]
        rcases ih with ⟨hgg, hall⟩ | ⟨hpos, hbound, y, l1, l2, hy, hsplit, hpre⟩
        · left
          refine ⟨hgg, ?_⟩
          intro p hp
          rcases List.mem_append.1 hp with hp | hp
          · exact hall p hp
          · rw [List.mem_singleton] at hp
            subst hp
            have hz : (ps.foldl gstep ((0 : Int), (none : Option Nat))).1 = 0 := by
              rw [hgg]
            omega
        · right
          refine ⟨hpos, ?_, y, l1, l2 ++ [q], hy, ?_, hpre⟩
          · intro p hp
            rcases List.mem_append.1 hp with hp | hp
            · exact hbound p hp
            · rw [List.mem_singleton] at hp
              subst hp
              omega
          · conv_lhs => rw [hsplit]
            simp

theorem lfold_char (ps : List (Nat × Int)) :
    FirstMinNeg ps (ps.foldl lstep (0, none)) := by
  induction ps using List.reverseRecOn with
  | nil =>
      exact Or.inl ⟨rfl, by simp⟩
  | append_singleton ps q ih =>
      rw [List.foldl_append, List.foldl_cons, List.foldl_nil]
      have hle : (ps.foldl lstep (0, none)).1 ≤ 0 := by
        rcases ih with ⟨hgg, _⟩ | ⟨hneg, _⟩
        · rw [hgg]
        · omega
      have hls : lstep (ps.foldl lstep (0, none)) q =
          if q.2 < 0 ∧ |(ps.foldl lstep (0, none)).1| < |q.2| then (q.2, some q.1)
          else ps.foldl lstep (0, none) := rfl
      rw [hls]
      by_cases hc : q.2 < 0 ∧ |(ps.foldl lstep (0, none)).1| < |q.2|
      · rw [if_pos hc]
        right
        have habs1 : |(ps.foldl lstep ((0 : Int), (none : Option Nat))).1| =
            -(ps.foldl lstep ((0 : Int), (none : Option Nat))).1 := abs_of_nonpos hle
        have habs2 : |q.2| = -q.2 := abs_of_nonpos (le_of_lt hc.1)
        have hlt : q.2 < (ps.foldl lstep ((0 : Int), (none : Option Nat))).1 := by
          have := hc.2
          rw [habs1, habs2] at this
          omega
        have hbnd : ∀ p ∈ ps, q.2 < p.2 := by
          intro p hp
          rcases ih with ⟨hgg, hall⟩ | ⟨hneg, hbound, _⟩
          · have := hall p hp
            omega
          · have := hbound p hp
            omega
        refine ⟨hc.1, ?_, q.1, ps, [], rfl, by simp, hbnd⟩
        intro p hp
        rcases List.mem_append.1 hp with hp | hp
        · exact le_of_lt (hbnd p hp)
        · rw [List.mem_singleton] at hp
          subst hp
          exact le_refl _
      · rw [if_neg hc]
        have hql : (ps.foldl lstep ((0 : Int), (none : Option Nat))).1 ≤ q.2 := by
          by_cases hneg : q.2 < 0
          · have habs1 : |(ps.foldl lstep ((0 : Int), (none : Option Nat))).1| =
                -(ps.foldl lstep ((0 : Int), (none : Option Nat))).1 := abs_of_nonpos hle
            have habs2 : |q.2| = -q.2 := abs_of_nonpos (le_of_lt hneg)
            have hna : ¬ |(ps.foldl lstep ((0 : Int), (none : Option Nat))).1| < |q.2| := by
              intro hcc
              exact hc ⟨hneg, hcc⟩
            rw [habs1, habs2] at hna
            omega
          · omega
        rcases ih with ⟨hgg, hall⟩ | ⟨hneg, hbound, y, l1, l2, hy, hsplit, hpre⟩
        · left
          refine ⟨hgg, ?_⟩
          intro p hp
          rcases List.mem_append.1 hp with hp | hp
          · exact hall p hp
          · rw [List.mem_singleton] at hp
            subst hp
            have hz : (ps.foldl lstep ((0 : Int), (none : Option Nat))).1 = 0 := by
              rw [hgg]
            omega
        · right
          refine ⟨hneg, ?_, y, l1, l2 ++ [q], hy, ?_, hpre⟩
          · intro p hp
            rcases List.mem_append.1 hp with hp | hp
            · exact hbound p hp
            · rw [List.mem_singleton] at hp
              subst hp
              exact hql
          · conv_lhs => rw [hsplit]
            simp

/-! Helper for the forecast failure analysis. -/

theorem predict_zero_slot {s : ClientsState}
    (hz : lookupA s.year_dict 0 = none)
    (ha : s.last_three_years.1 = 0)
    (hb : s.last_three_years.2.1 ≠ 0 → s.last_three_years.2.1 ∈ keysA s.year_dict)
    (hc : s.last_three_years.2.2 ≠ 0 → s.last_three_years.2.2 ∈ keysA s.year_dict) :
    predict_revenue s = Except.error (SubError.keyError 0) := by
  unfold predict_revenue
  dsimp only
  by_cases h2 : s.last_three_years.2.2 = 0
  · rw [h2, hz]
  · obtain ⟨v2, hv2⟩ := lookupA_of_mem (hc h2)
    rw [hv2]
    by_cases h1 : s.last_three_years.2.1 = 0
    · rw [h1, hz]
    · obtain ⟨v1, hv1⟩ := lookupA_of_mem (hb h1)
      rw [hv1, ha, hz]

theorem year_zero_absent (rs : List Transaction)
    (hyear : ∀ r ∈ rs, 1 ≤ r.date.year) :
    lookupA (runState rs).year_dict 0 = none := by
  rw [lookupA_eq_none_iff]
  intro h0
  unfold runState at h0
  rcases run_year_keys rs initState 0 h0 with hh | hh
  · simp [initState, keysA] at hh
  · rcases hh with ⟨r, hr, hy⟩
    have := hyear r hr
    omega

theorem ingestStep_of_none {acc : ClientsState × Option SubError}
    (h : acc.2 = none) (r : Transaction) :
    ingestStep acc r = process_line acc.1 r := by
  unfold ingestStep
  rw [h]

/-! Claim theorems. -/

/-- C1: the spec (and the docstring of _set_type itself) says a DAILY or
MONTHLY subscriber whose next day delta exceeds 31 keeps its cadence; the
code instead falls into the raising else branch: _set_type on a daily or
monthly client with delta 40 raises InvalidDateTypeError, and the pass over
one subscriber at day deltas [10, 15, 40] aborts with that error instead of
ending with cadence daily. -/
theorem c1_daily_long_gap_raises :
    set_type Cadence.daily (SubDate.mk 2000 0) (SubDate.mk 2000 40) =
      Except.error SubError.invalidDateType ∧
    set_type Cadence.monthly (SubDate.mk 2000 0) (SubDate.mk 2000 40) =
      Except.error SubError.invalidDateType ∧
    (ingestAll exLongGap).2 = some SubError.invalidDateType := by
  refine ⟨by decide, by decide, by decide⟩

/-- C6: a record whose day delta from the subscriber prior record is zero or
negative (identical dates in particular) makes the ingest fail with
InvalidDateTypeError, and a failing record appended to a so far successful
pass surfaces its error as the result of the whole pass, unrecovered. -/
theorem c6_nonpositive_delta_raises :
    (∀ (s : ClientsState) (r : Transaction) (item : ClientEntry),
      lookupA s.client_dict r.id = some item →
      r.date.serial ≤ item.date.serial →
      (process_line s r).2 = some SubError.invalidDateType) ∧
    (∀ (rs : List Transaction) (r : Transaction) (e : SubError),
      (ingestAll rs).2 = none →
      (process_line (ingestAll rs).1 r).2 = some e →
      (ingestAll (rs ++ [r])).2 = some e) := by
  constructor
  · intro s r item hl hd
    have hst : set_type item.type_ item.date r.date =
        Except.error SubError.invalidDateType := set_type_nonpos (by omega)
    rw [process_line_error hl hst]
  · intro rs r e hok herr
    unfold ingestAll at hok herr ⊢
    rw [List.foldl_append, List.foldl_cons, List.foldl_nil]
    rw [ingestStep_of_none hok]
    exact herr

/-- C6 witness: re-billing the single known subscriber on its stored date
(day delta 0) fails with InvalidDateTypeError. -/
theorem c6_nonpositive_delta_raises_witness :
    (process_line (ingestAll exSingle).1 (trec 1 5 2000 0)).2 =
      some SubError.invalidDateType :=
  c6_nonpositive_delta_raises.1 (ingestAll exSingle).1 (trec 1 5 2000 0)
    (ClientEntry.mk Cadence.oneOff 1 (SubDate.mk 2000 0)) (by decide) (by decide)

/-- C7: an unseen subscriber is stored as one-off with count 1 and the date
of its record and the ingest succeeds; day deltas [29, 29] end monthly with
count 3; a single record ends one-off with count 1. -/
theorem c7_first_seen_and_monthly :
    (∀ (s : ClientsState) (r : Transaction), lookupA s.client_dict r.id = none →
      lookupA (process_line s r).1.client_dict r.id =
          some (ClientEntry.mk Cadence.oneOff 1 r.date) ∧
        (process_line s r).2 = none) ∧
    lookupA (ingestAll exMonthly).1.client_dict 1 =
      some (ClientEntry.mk Cadence.monthly 3 (SubDate.mk 2000 58)) ∧
    lookupA (ingestAll exSingle).1.client_dict 1 =
      some (ClientEntry.mk Cadence.oneOff 1 (SubDate.mk 2000 0)) := by
  refine ⟨?_, by decide, by decide⟩
  intro s r hl
  rw [process_line_new hl]
  dsimp only
  constructor
  · rw [lookupA_append_of_none _ hl]
    simp [lookupA]
  · rfl

/-- C7 witness: the first record of subscriber 4 creates the one-off entry
with count 1. -/
theorem c7_first_seen_and_monthly_witness :
    lookupA (process_line initState (trec 4 9 1999 3)).1.client_dict 4 =
      some (ClientEntry.mk Cadence.oneOff 1 (SubDate.mk 1999 3)) :=
  (c7_first_seen_and_monthly.1 initState (trec 4 9 1999 3) (by decide)).1

/-- C10: when cadence inference raises on a known subscriber, the returned
state already carries the credited ledger bucket, the updated recent-years
triple and the incremented observation count; only the stored cadence and
date are unchanged, and every other subscriber is untouched. -/
theorem c10_partial_mutation_on_error :
    ∀ (s : ClientsState) (r : Transaction) (item : ClientEntry) (e : SubError),
      lookupA s.client_dict r.id = some item →
      (process_line s r).2 = some e →
      (process_line s r).1.year_dict = bumpYear s.year_dict r.date.year r.amount ∧
      (process_line s r).1.last_three_years = upd3 s.last_three_years r.date.year ∧
      lookupA (process_line s r).1.client_dict r.id =
        some (ClientEntry.mk item.type_ (item.duration + 1) item.date) ∧
      (∀ j : Nat, j ≠ r.id →
        lookupA (process_line s r).1.client_dict j = lookupA s.client_dict j) := by
  intro s r item e hl herr
  have hm : r.id ∈ keysA s.client_dict := (mem_keysA_iff _ _).2 ⟨item, hl⟩
  cases hst : set_type item.type_ item.date r.date with
  | ok t =>
      rw [process_line_known hl hst] at herr
      exact Option.noConfusion herr
  | error e2 =>
      rw [process_line_error hl hst]
      dsimp only
      refine ⟨rfl, rfl, ?_, ?_⟩
      · exact lookupA_setClient_self _ hm
      · intro j hj
        exact lookupA_setClient_ne _ _ _ hj

/-- C10 witness: the failing duplicate-date ingest of subscriber 1 leaves the
entry one-off with the count already incremented to 2. -/
theorem c10_partial_mutation_on_error_witness :
    lookupA (process_line (ingestAll exSingle).1 (trec 1 7 2001 0)).1.client_dict 1 =
      some (ClientEntry.mk Cadence.oneOff 2 (SubDate.mk 2000 0)) :=
  (c10_partial_mutation_on_error (ingestAll exSingle).1 (trec 1 7 2001 0)
    (ClientEntry.mk Cadence.oneOff 1 (SubDate.mk 2000 0)) SubError.invalidDateType
    (by decide) (by decide)).2.2.1

/-- C4: over a successfully ingested stream, the total of the yearly revenue
ledger equals the sum of all record amounts, and the bucket of each year Y
equals the sum of the amounts of exactly the records dated in year Y. -/
theorem c4_revenue_conservation :
    ∀ rs : List Transaction, Succeeds rs →
      sumVals (ingestAll rs).1.year_dict = (rs.map Transaction.amount).sum ∧
      ∀ Y : Nat, lookupD (ingestAll rs).1.year_dict Y =
        ((rs.filter fun r => r.date.year == Y).map Transaction.amount).sum := by
  intro rs hs
  rw [ingestAll_eq_runState hs]
  unfold runState
  rw [run_year_dict]
  constructor
  · rw [bumpFold_sum]
    simp [initState, sumVals]
  · intro Y
    rw [bumpFold_lookupD]
    simp [initState, lookupD, lookupA]

/-- C4 witness: on the three-record forecast example the ledger total is the
sum 100 + 150 + 170 of the amounts. -/
theorem c4_revenue_conservation_witness :
    sumVals (ingestAll exPredict).1.year_dict =
      (exPredict.map Transaction.amount).sum :=
  (c4_revenue_conservation exPredict (by decide)).1

/-- C9: after a successful pass, the category report raises
FileNotProcessedError exactly when no record was ingested; otherwise it has
one entry per distinct ingested subscriber id (the stored keys are exactly
the ingested ids, without duplicates), and a stored entry carries that
subscriber's final observation count (the number of its records) and final
cadence, appearing in the returned list. -/
theorem c9_category_report :
    ∀ rs : List Transaction, Succeeds rs →
      ((get_subscriber_category (ingestAll rs).1 =
          Except.error SubError.fileNotProcessed) ↔ rs = []) ∧
      (keysA (ingestAll rs).1.client_dict).Nodup ∧
      (∀ i : Nat, i ∈ keysA (ingestAll rs).1.client_dict ↔
        i ∈ rs.map Transaction.id) ∧
      (∀ (i : Nat) (item : ClientEntry),
        lookupA (ingestAll rs).1.client_dict i = some item →
        item.duration = (rs.filter fun r => r.id == i).length ∧
        ∀ L, get_subscriber_category (ingestAll rs).1 = Except.ok L →
          (i, item.type_, item.duration, unit_of item.type_) ∈ L) := by
  intro rs hs
  rw [ingestAll_eq_runState hs]
  unfold runState
  have hcd : (List.foldl stepState initState rs).client_dict = [] ↔ rs = [] := by
    cases rs with
    | nil => simp [initState]
    | cons r rest =>
        constructor
        · intro hnil
          exfalso
          rw [List.foldl_cons] at hnil
          exact run_client_ne_nil rest _ (stepState_client_ne_nil initState r) hnil
        · intro h
          exact absurd h (List.cons_ne_nil r rest)
  refine ⟨?_, ?_, ?_, ?_⟩
  · unfold get_subscriber_category
    by_cases hnil : (List.foldl stepState initState rs).client_dict = []
    · rw [if_pos hnil]
      simp only [true_iff, iff_true]
      exact hcd.1 hnil
    · rw [if_neg hnil]
      constructor
      · intro h
        exact Except.noConfusion h
      · intro h
        exact absurd (hcd.2 h) hnil
  · exact run_client_nodup rs initState (by simp [initState, keysA])
  · intro i
    rw [run_client_mem]
    simp [initState, keysA]
  · intro i item hli
    constructor
    · have hd := run_durAt rs initState i
      unfold durAt at hd
      rw [hli] at hd
      simpa [initState, lookupA] using hd
    · intro L hL
      unfold get_subscriber_category at hL
      by_cases hnil : (List.foldl stepState initState rs).client_dict = []
      · rw [if_pos hnil] at hL
        exact Except.noConfusion hL
      · rw [if_neg hnil] at hL
        injection hL with hL2
        rw [← hL2]
        have hmem := lookupA_some_mem hli
        exact List.mem_map_of_mem
          (fun p => (p.1, p.2.type_, p.2.duration, unit_of p.2.type_)) hmem

/-- C9 witness: on the monthly example the stored count of subscriber 1
equals the number of its records, 3. -/
theorem c9_category_report_witness :
    (ClientEntry.mk Cadence.monthly 3 (SubDate.mk 2000 58)).duration =
      (exMonthly.filter fun r => r.id == 1).length :=
  ((c9_category_report exMonthly (by decide)).2.2.2 1
    (ClientEntry.mk Cadence.monthly 3 (SubDate.mk 2000 58)) (by decide)).1

/-- C8: after a successful pass whose ledger holds at least three distinct
years, the recent-years triple (maintained from the sentinel (0,0,0) by the
sorted-slot insertion upd3) holds exactly the three largest distinct ledger
years, in ascending order. -/
theorem c8_last_three_years_top3 :
    ∀ rs : List Transaction, Succeeds rs →
    ∀ p q u : Nat,
      p ∈ keysA (ingestAll rs).1.year_dict →
      q ∈ keysA (ingestAll rs).1.year_dict →
      u ∈ keysA (ingestAll rs).1.year_dict →
      p < q → q < u →
      ∃ y0 y1 y2 : Nat,
        (ingestAll rs).1.last_three_years = (y0, y1, y2) ∧
        y0 < y1 ∧ y1 < y2 ∧
        y0 ∈ keysA (ingestAll rs).1.year_dict ∧
        y1 ∈ keysA (ingestAll rs).1.year_dict ∧
        y2 ∈ keysA (ingestAll rs).1.year_dict ∧
        (∀ y ∈ keysA (ingestAll rs).1.year_dict, y = y1 ∨ y = y2 ∨ y ≤ y0) := by
  intro rs hs p q u hp hq hu hpq hqu
  rw [ingestAll_eq_runState hs] at hp hq hu ⊢
  have hinv := slotsInv_run rs
  obtain ⟨hka, hkb, hkc, hab, hbc, hdom⟩ := slotsInv_top3 hinv hp hq hu hpq hqu
  exact ⟨(runState rs).last_three_years.1, (runState rs).last_three_years.2.1,
    (runState rs).last_three_years.2.2, rfl, hab, hbc, hka, hkb, hkc, hdom⟩

/-- C8 witness: on the forecast example the triple is (2012, 2013, 2014). -/
theorem c8_last_three_years_top3_witness :
    ∃ y0 y1 y2 : Nat,
      (ingestAll exPredict).1.last_three_years = (y0, y1, y2) ∧
      y0 < y1 ∧ y1 < y2 ∧
      y0 ∈ keysA (ingestAll exPredict).1.year_dict ∧
      y1 ∈ keysA (ingestAll exPredict).1.year_dict ∧
      y2 ∈ keysA (ingestAll exPredict).1.year_dict ∧
      (∀ y ∈ keysA (ingestAll exPredict).1.year_dict, y = y1 ∨ y = y2 ∨ y ≤ y0) :=
  c8_last_three_years_top3 exPredict (by decide) 2012 2013 2014
    (by decide) (by decide) (by decide) (by decide) (by decide)

/-- C3: when the ledger holds at least three distinct years, predict_revenue
returns exactly (r2 - r1) * (y2 - y0 + 1) + r0 for the three most recent
distinct years y0 < y1 < y2 with revenues r0, r1, r2, and on the ledger
2012 maps to 100, 2013 to 150, 2014 to 170 it returns 160. -/
theorem c3_predict_formula :
    (∀ (rs : List Transaction) (y0 y1 y2 : Nat), Succeeds rs →
      y0 ∈ keysA (ingestAll rs).1.year_dict →
      y1 ∈ keysA (ingestAll rs).1.year_dict →
      y2 ∈ keysA (ingestAll rs).1.year_dict →
      y0 < y1 → y1 < y2 →
      (∀ y ∈ keysA (ingestAll rs).1.year_dict, y = y1 ∨ y = y2 ∨ y ≤ y0) →
      predict_revenue (ingestAll rs).1 =
        Except.ok ((lookupD (ingestAll rs).1.year_dict y2 -
            lookupD (ingestAll rs).1.year_dict y1) *
          ((y2 : Int) - (y0 : Int) + 1) + lookupD (ingestAll rs).1.year_dict y0)) ∧
    predict_revenue (ingestAll exPredict).1 = Except.ok 160 := by
  constructor
  · intro rs y0 y1 y2 hs h0 h1 h2 h01 h12 hdom
    rw [ingestAll_eq_runState hs] at h0 h1 h2 hdom ⊢
    have hinv := slotsInv_run rs
    have hslots := slots_eq_top3 hinv h0 h1 h2 h01 h12 hdom
    exact predict_of_slots hslots h0 h1 h2
  · decide

/-- C3 witness: the general formula applied to the concrete three-year ledger
gives (170 - 150) * (2014 - 2012 + 1) + 100 = 160. -/
theorem c3_predict_formula_witness :
    predict_revenue (ingestAll exPredict).1 = Except.ok 160 := by
  have h := c3_predict_formula.1 exPredict 2012 2013 2014 (by decide) (by decide)
    (by decide) (by decide) (by decide) (by decide) (by decide)
  rw [h]
  decide

/-- C2 counterexample: with only two distinct ledger years the forecast does
fail, but with the builtin KeyError of the dict lookup on the sentinel year
0; the error is neither of the two exception classes the module defines, and
in particular no dedicated insufficient-data exception exists or is raised. -/
theorem c2_insufficient_data_counterexample :
    predict_revenue (ingestAll exTwoYears).1 = Except.error (SubError.keyError 0) ∧
    SubError.keyError 0 ≠ SubError.invalidDateType ∧
    SubError.keyError 0 ≠ SubError.fileNotProcessed := by
  refine ⟨by decide, by decide, by decide⟩

/-- C2 amended: over a successful pass with valid calendar years (all at
least 1), predict_revenue fails exactly on ledgers with fewer than three
distinct years, the failure being the KeyError on the untouched sentinel
slot year 0; with at least three distinct years it returns a value. -/
theorem c2_insufficient_data_amended :
    ∀ rs : List Transaction, Succeeds rs → (∀ r ∈ rs, 1 ≤ r.date.year) →
      ((∀ p q u : Nat, p ∈ keysA (ingestAll rs).1.year_dict →
          q ∈ keysA (ingestAll rs).1.year_dict →
          u ∈ keysA (ingestAll rs).1.year_dict → p < q → q < u → False) →
        predict_revenue (ingestAll rs).1 = Except.error (SubError.keyError 0)) ∧
      ((∃ p q u : Nat, p ∈ keysA (ingestAll rs).1.year_dict ∧
          q ∈ keysA (ingestAll rs).1.year_dict ∧
          u ∈ keysA (ingestAll rs).1.year_dict ∧ p < q ∧ q < u) →
        ∃ v : Int, predict_revenue (ingestAll rs).1 = Except.ok v) := by
  intro rs hs hyear
  rw [ingestAll_eq_runState hs]
  have hinv := slotsInv_run rs
  have hz := year_zero_absent rs hyear
  obtain ⟨h1, h2, h3, h4, h5, h6, h7, h8⟩ := hinv
  constructor
  · intro hlt3
    have ha0 : (runState rs).last_three_years.1 = 0 := by
      by_contra ha
      have hb0 : (runState rs).last_three_years.2.1 ≠ 0 := by omega
      have hc0 : (runState rs).last_three_years.2.2 ≠ 0 := by omega
      exact hlt3 (runState rs).last_three_years.1 (runState rs).last_three_years.2.1
        (runState rs).last_three_years.2.2 (h5 ha) (h6 hb0) (h7 hc0) (h3 hb0) (h4 hc0)
    exact predict_zero_slot hz ha0 h6 h7
  · rintro ⟨p, q, u, hp, hq, hu, hpq, hqu⟩
    obtain ⟨hka, hkb, hkc, hab, hbc, hdom⟩ :=
      slotsInv_top3 ⟨h1, h2, h3, h4, h5, h6, h7, h8⟩ hp hq hu hpq hqu
    obtain ⟨v0, hv0⟩ := lookupA_of_mem hka
    obtain ⟨v1, hv1⟩ := lookupA_of_mem hkb
    obtain ⟨v2, hv2⟩ := lookupA_of_mem hkc
    refine ⟨(v2 - v1) * (((runState rs).last_three_years.2.2 : Int) -
      ((runState rs).last_three_years.1 : Int) + 1) + v0, ?_⟩
    unfold predict_revenue
    dsimp only
    rw [hv2, hv1, hv0]

/-- C2 amended witness: the two-year example fails with KeyError 0, and the
three-year example succeeds. -/
theorem c2_insufficient_data_amended_witness :
    predict_revenue (ingestAll exTwoYears).1 = Except.error (SubError.keyError 0) ∧
    ∃ v : Int, predict_revenue (ingestAll exPredict).1 = Except.ok v := by
  constructor
  · refine (c2_insufficient_data_amended exTwoYears (by decide) (by decide)).1 ?_
    have hk : keysA (ingestAll exTwoYears).1.year_dict = [2013, 2014] := by decide
    intro p q u hp hq hu hpq hqu
    rw [hk] at hp hq hu
    simp only [List.mem_cons, List.mem_singleton, List.not_mem_nil, or_false] at hp hq hu
    omega
  · exact (c2_insufficient_data_amended exPredict (by decide) (by decide)).2
      ⟨2012, 2013, 2014, by decide, by decide, by decide, by decide, by decide⟩

/-- C5 counterexample: on the ledger 2000 maps to 100, 2001 maps to 100, the
only qualifying consecutive pair has the non-negative delta 0, yet the
growth report stays at the sentinel (0, N/A): the code only records a delta
strictly above the sentinel value 0, so the claimed largest non-negative
pair (2001, 0) is not reported. -/
theorem c5_extrema_counterexample :
    qualPairs (ingestAll exFlat).1.year_dict = [(2001, 0)] ∧
    get_revenue_extrema (ingestAll exFlat).1 = ((0, none), (0, none)) := by
  refine ⟨by decide, by decide⟩

/-- C5 amended: for every state, maxGrowth is the first qualifying
consecutive-year pair attaining the largest strictly positive delta (the
sentinel (0, N/A) when no delta is positive — a zero delta never qualifies),
maxLoss is the first pair attaining the most negative delta (sentinel when
none is negative), and on the ledger 2010 maps to 100, 2011 to 300, 2012 to
250 the result is maxGrowth (2011, 200) and maxLoss (2012, -50). -/
theorem c5_extrema_amended :
    (∀ s : ClientsState,
      FirstMaxPos (qualPairs s.year_dict) (get_revenue_extrema s).1 ∧
      FirstMinNeg (qualPairs s.year_dict) (get_revenue_extrema s).2) ∧
    get_revenue_extrema (ingestAll exExtrema).1 =
      ((200, some 2011), (-50, some 2012)) := by
  constructor
  · intro s
    rw [extrema_eq]
    exact ⟨gfold_char _, lfold_char _⟩
  · decide
